import Mathlib

/-!
# Verification of the Speridian report-generator pipeline

Shallow embedding of `src/app.py` (a single-page dashboard that loads a
tabular file, generates one free-text report per row via a remote
completion service, and lets the user browse and export the reports).

Conventions of the embedding:
* A pandas row is a `List (String × CellValue)` (column name to cell).
* The Streamlit session `reports` dict is a function `Nat → Option String`
  (`none` = index absent from the dict); the app only ever inserts keys
  that are valid row indices, which theorems carry as a hypothesis where
  the dict size matters.
* The remote completion call is an oracle `Nat → Option String`:
  `none` models the call raising (caught by the `except` in
  `generate_report_with_groq`, which returns Python `None`), and
  `some s` models a successful call returning text `s`.
* Python truthiness of the returned report (`if report:`) is the check
  `reportTruthy`.
-/

/-- A cell of the uploaded table: missing/NaN, a string, or a number
(the distinctions `extract_row_data` can observe via `pd.isna`). -/
inductive CellValue where
  | na : CellValue
  | str : String → CellValue
  | int : Int → CellValue
deriving DecidableEq, Repr

/-- `pd.isna(value)` on our cell model. -/
def isNa : CellValue → Bool
  | CellValue.na => true
  | _ => false

/-- Python `str(value)` on a non-NaN cell. -/
def pyStr : CellValue → String
  | CellValue.na => "nan"
  | CellValue.str s => s
  | CellValue.int z => toString z

/-- `extract_row_data` (src/app.py lines 29-41): for every column of the
row, store `''` when the value is NaN and `str(value)` otherwise. -/
def extract_row_data (row : List (String × CellValue)) : List (String × String) :=
  row.map (fun p => (p.1, if isNa p.2 then "" else pyStr p.2))

/-! ## Navigation (src/app.py lines 217-227)

The Previous button is disabled when `current_index <= 0` and decrements
otherwise; the Next button is disabled when
`current_index >= len(df) - 1` and increments otherwise.  The index is a
Python integer, modelled as `ℤ` so that boundedness is a theorem rather
than a typing artifact. -/

inductive NavOp where
  | next : NavOp
  | prev : NavOp
deriving DecidableEq, Repr

/-- One button interaction: a disabled button cannot fire, so the guarded
branch is the only state change. -/
def navStep (n : ℤ) (i : ℤ) : NavOp → ℤ
  | NavOp.next => if i < n - 1 then i + 1 else i
  | NavOp.prev => if 0 < i then i - 1 else i

/-- Run a finite sequence of next/previous clicks from index `i`. -/
def navRun (n : ℤ) (i : ℤ) : List NavOp → ℤ
  | [] => i
  | op :: ops => navRun n (navStep n i op) ops

/-! ## Groq client initialization and render gating
(src/app.py lines 17-26 and 211-214, 332-336) -/

/-- The secrets store: `st.secrets.get("GROQ_API_KEY", "")` yields `""`
when the key is absent; we model the configured credential as
`Option String` with `none` = key not present. -/
def secretsGet (secret : Option String) : String :=
  match secret with
  | none => ""
  | some s => s

/-- Result of `initialize_groq_client`: the client handle (or `None`) and
whether `st.error` was shown. -/
structure InitResult where
  client : Option Unit
  errorShown : Bool
deriving DecidableEq, Repr

/-- `initialize_groq_client` (lines 17-26): an empty / missing key shows a
configuration error and returns `None`; otherwise a client is built. -/
def initialize_groq_client (secret : Option String) : InitResult :=
  let api_key := secretsGet secret
  if api_key = "" then
    { client := none, errorShown := true }
  else
    { client := some (), errorShown := false }

/-- The three top-level render branches of `main` (lines 211, 332, 335). -/
inductive RenderMode where
  | mainView : RenderMode
  | configWarning : RenderMode
  | uploadHint : RenderMode
deriving DecidableEq, Repr

/-- Branch selection of `main`: the generation UI renders only when both a
table and a client are present; with no client a configuration warning is
shown instead. -/
def renderMode (client : Option Unit) (df : Option Nat) : RenderMode :=
  if df.isSome ∧ client.isSome then RenderMode.mainView
  else if client.isNone then RenderMode.configWarning
  else RenderMode.uploadHint

/-! ## Progress computation (src/app.py line 213)

`progress_value = (current_index + 1) / len(df)` — a bare division;
`none` models the `ZeroDivisionError` raised when the table has 0 rows. -/

/-- The progress fraction, `none` when the division raises. -/
def progressValue (i n : ℕ) : Option ℚ :=
  if n = 0 then none else some ((i + 1 : ℚ) / (n : ℚ))

/-! ## Report generation and the session report map

`generate_report_with_groq` (lines 85-110) returns the completion text or
`None` when the remote call raised (the `except` branch shows `st.error`).
The oracle argument below stands for one round-trip to the service. -/

/-- Python truthiness of the returned report: `if report:` fails on
`None` and on the empty string. -/
def reportTruthy : Option String → Bool
  | none => false
  | some s => s ≠ ""

/-- Insert a key into the session `reports` dict. -/
def storeReport (reports : Nat → Option String) (i : Nat) (r : String) :
    Nat → Option String :=
  fun j => if j = i then some r else reports j

/-- Outcome of one render of the report area (lines 268-289). -/
structure ViewResult where
  reports : Nat → Option String
  shown : Option String
  errorShown : Bool
  calls : List Nat

/-- The report-area render for the current index (lines 268-289): a cached
report is shown as-is; otherwise one completion call is made, a truthy
result is stored and shown, and a falsy result shows an error and stops
(`st.stop`) without touching the dict. -/
def viewStep (oracle : Nat → Option String) (reports : Nat → Option String)
    (i : Nat) : ViewResult :=
  match reports i with
  | some r => { reports := reports, shown := some r, errorShown := false, calls := [] }
  | none =>
    let report := oracle i
    if reportTruthy report then
      let stored := storeReport reports i (report.getD "")
      { reports := stored, shown := stored i, errorShown := false, calls := [i] }
    else
      { reports := reports, shown := none, errorShown := true, calls := [i] }

/-- Events observable during "Generate All": an outbound completion call
for an index, or the fixed `time.sleep(1)`. -/
inductive BulkEv where
  | call : Nat → BulkEv
  | sleepOneSecond : BulkEv
deriving DecidableEq, Repr

/-- The "Generate All" loop body over an explicit worklist of indices
(lines 229-238): for each index still absent from the dict, one
completion call, a truthy result stored, then `time.sleep(1)`; present
indices are skipped with no call and no sleep. -/
def generateAllAux (oracle : Nat → Option String) :
    List Nat → (Nat → Option String) → ((Nat → Option String) × List BulkEv)
  | [], reports => (reports, [])
  | i :: is, reports =>
    match reports i with
    | some _ => generateAllAux oracle is reports
    | none =>
      let report := oracle i
      let reports2 :=
        if reportTruthy report then storeReport reports i (report.getD "") else reports
      let rest := generateAllAux oracle is reports2
      (rest.1, BulkEv.call i :: BulkEv.sleepOneSecond :: rest.2)

/-- "Generate All" (lines 229-238): `for idx in range(len(df)): ...`. -/
def generateAll (oracle : Nat → Option String) (n : Nat)
    (reports : Nat → Option String) : (Nat → Option String) × List BulkEv :=
  generateAllAux oracle (List.range n) reports

/-- Uploading a new file (lines 191-196) replaces the table, clears the
whole report dict and resets the index to the first record. -/
def uploadStep (newCount : Nat) :
    Nat × Nat × (Nat → Option String) :=
  (newCount, 0, fun _ => none)

/-! ## Export (src/app.py lines 306-330)

The "Download All Reports as CSV" branch is taken only when
`len(st.session_state.reports) == len(st.session_state.df)`; it then
collects `reports[idx]` for `idx in range(len(df))` in order and appends
them as one column.  Otherwise a disabled button is rendered and no file
is produced.  `presentCount` is `len(reports)` under the session
invariant that every key of the dict is a valid row index. -/

/-- Number of row indices present in the report dict. -/
def presentCount (n : Nat) (reports : Nat → Option String) : Nat :=
  ((List.range n).filter (fun i => (reports i).isSome)).length

/-- The export branch: `some` column of report texts when enabled,
`none` when the download button is disabled. -/
def exportReports (n : Nat) (reports : Nat → Option String) : Option (List String) :=
  if presentCount n reports = n then
    some ((List.range n).filterMap (fun i => reports i))
  else
    none

/-! ## Report post-processor (spec §4.4)

No post-processing code exists in `src/app.py` (the `re` import is
unused); the spec describes the post-processor of the repository's other
variants.  It is therefore modelled from the spec below. -/

/-- A line of generated text, as its list of characters. -/
abbrev TextLine := List Char

/-- The "Pain Points" section header line. -/
def painPointsHeader : TextLine := "Pain Points:".toList

/-- The "Recent Initiatives" section header line. -/
def recentInitiativesHeader : TextLine := "Recent Initiatives:".toList

/-- Whether a line is one of the two section headers of spec §4.4. -/
def isSectionHeader (l : TextLine) : Bool :=
  l == painPointsHeader || l == recentInitiativesHeader

/-- Modelled from the spec: split off a leading enumeration marker
(one or more digits followed by a period), returning the remainder of
the line, or `none` when the line is not an enumerated item. -/
def enumSplit (l : TextLine) : Option TextLine :=
  let ds := l.takeWhile (fun c => c.isDigit)
  let rest := l.dropWhile (fun c => c.isDigit)
  if ds ≠ [] ∧ rest.head? = some '.' then some rest.tail else none

/-- Modelled from the spec: convert an enumerated list item ("1.", "2.")
into a bullet-marker item. -/
def bulletize (l : TextLine) : TextLine :=
  match enumSplit l with
  | some r => '•' :: ' ' :: r
  | none => l

/-- Helper for `breakLine`: split the tail of a line (everything after
its first character) before every bullet marker, returning the rest of
the current segment and the later segments. -/
def breakTail : TextLine → TextLine × List TextLine
  | [] => ([], [])
  | c :: cs =>
    let p := breakTail cs
    if c = '•' then ([], (c :: p.1) :: p.2) else (c :: p.1, p.2)

/-- Modelled from the spec: normalize line breaks so each bullet occupies
one line — a line break is inserted before every bullet marker that is
not already at the start of its line. -/
def breakLine : TextLine → List TextLine
  | [] => [[]]
  | c :: cs =>
    let p := breakTail cs
    (c :: p.1) :: p.2

/-- Modelled from the spec: the line-level pass of the post-processor.
The flag tracks whether the current line is inside a "Pain Points" or
"Recent Initiatives" section (a section starts at its header line and
ends at the first empty line).  Every line has its enumeration markers
converted to bullet markers; inside the two sections line breaks are
additionally normalized so each bullet occupies one line. -/
def procLines : Bool → List TextLine → List TextLine
  | _, [] => []
  | inSection, l :: ls =>
    if isSectionHeader l then l :: procLines true ls
    else if l = [] then l :: procLines false ls
    else
      let l2 := bulletize l
      if inSection then breakLine l2 ++ procLines true ls
      else l2 :: procLines false ls

/-- Modelled from the spec (§4.4, absent from `src/app.py`): the report
post-processor, on generated text represented as its list of lines. -/
def postprocess (text : List TextLine) : List TextLine :=
  procLines false text

/-- The session invariant of the report dict maintained by the app: every
stored report is a non-empty string (claim C9). -/
def nonEmptyReports (reports : Nat → Option String) : Prop :=
  ∀ i r, reports i = some r → r ≠ ""

/-- A 3-row session in which only record 0 has been generated
(the scenario of spec §8 and claim C1). -/
def threeRowPartial : Nat → Option String :=
  fun i => if i = 0 then some "GENERATED-0" else none

/-- A 2-row session in which every record has been generated. -/
def twoRowFull : Nat → Option String :=
  fun i => if i < 2 then some "GENERATED" else none

/-! # Theorems -/

/-- C2: `extract_row_data` is total (it is a Lean function, hence never
raises), produces one output field per input column, and every output
field is the string rendering of its cell, with missing/NaN cells mapped
to the empty string. -/
theorem extract_row_data_safe (row : List (String × CellValue)) :
    (extract_row_data row).length = row.length ∧
    ∀ p ∈ extract_row_data row, ∃ v, (p.1, v) ∈ row ∧
      p.2 = (if isNa v then "" else pyStr v) ∧ (isNa v = true → p.2 = "") := by
  constructor
  · simp [extract_row_data]
  · intro p hp
    rcases List.mem_map.mp hp with ⟨q, hq, rfl⟩
    exact ⟨q.2, hq, rfl, fun h => by simp [h]⟩

/-- Witness for C2 at a concrete row with a NaN cell and a string cell. -/
theorem extract_row_data_safe_witness :
    (extract_row_data [("A", CellValue.na), ("B", CellValue.str "x")]).length = 2 ∧
    ("A", "") ∈ extract_row_data [("A", CellValue.na), ("B", CellValue.str "x")] ∧
    ∃ v, (("A", v) ∈ [("A", CellValue.na), ("B", CellValue.str "x")] ∧
      "" = (if isNa v then "" else pyStr v)) := by
  have h := extract_row_data_safe [("A", CellValue.na), ("B", CellValue.str "x")]
  refine ⟨h.1, by decide, ?_⟩
  rcases h.2 ("A", "") (by decide) with ⟨v, hv, he, _⟩
  exact ⟨v, hv, he⟩

/-- One navigation click preserves the index bounds. -/
lemma navStep_bounds (n i : ℤ) (op : NavOp) (h0 : 0 ≤ i) (h1 : i ≤ n - 1) :
    0 ≤ navStep n i op ∧ navStep n i op ≤ n - 1 := by
  cases op <;> simp [navStep] <;> split <;> omega

/-- Any click sequence from an in-bounds index stays in bounds. -/
lemma navRun_bounds (n : ℤ) (ops : List NavOp) :
    ∀ i : ℤ, 0 ≤ i → i ≤ n - 1 →
      0 ≤ navRun n i ops ∧ navRun n i ops ≤ n - 1 := by
  induction ops with
  | nil => intro i h0 h1; exact ⟨h0, h1⟩
  | cons op ops ih =>
    intro i h0 h1
    have hb := navStep_bounds n i op h0 h1
    exact ih (navStep n i op) hb.1 hb.2

/-- C3: for a table with at least one row, the navigation index, started
at 0, stays within `[0, recordCount-1]` under every finite sequence of
Next/Previous clicks; moreover Next increments only when
`index < recordCount - 1` and Previous decrements only when `index > 0`. -/
theorem navigation_bounded (n : ℤ) (hn : 1 ≤ n) (ops : List NavOp) :
    (0 ≤ navRun n 0 ops ∧ navRun n 0 ops ≤ n - 1) ∧
    (∀ i : ℤ, navStep n i NavOp.next = i + 1 → i < n - 1) ∧
    (∀ i : ℤ, navStep n i NavOp.prev = i - 1 → 0 < i) := by
  refine ⟨navRun_bounds n ops 0 le_rfl (by omega), ?_, ?_⟩
  · intro i h
    by_contra hc
    simp only [navStep, if_neg hc] at h
    omega
  · intro i h
    by_contra hc
    simp only [navStep, if_neg hc] at h
    omega

/-- Witness for C3: a 3-row table, clicking Next three times and
Previous once lands in bounds (at index 1). -/
theorem navigation_bounded_witness :
    (1 : ℤ) ≤ 3 ∧
    (0 ≤ navRun 3 0 [NavOp.next, NavOp.next, NavOp.next, NavOp.prev] ∧
      navRun 3 0 [NavOp.next, NavOp.next, NavOp.next, NavOp.prev] ≤ 3 - 1) :=
  ⟨by norm_num,
    (navigation_bounded 3 (by norm_num)
      [NavOp.next, NavOp.next, NavOp.next, NavOp.prev]).1⟩

/-- C8: a missing or empty API credential makes `initialize_groq_client`
report a configuration error and return no client, and with no client the
main render branch (the only one containing the single and bulk
generation actions) is never taken — a configuration warning renders
instead, whatever table is loaded. -/
theorem missing_credential_blocks_generation (secret : Option String)
    (h : secret = none ∨ secret = some "") :
    (initialize_groq_client secret).client = none ∧
    (initialize_groq_client secret).errorShown = true ∧
    ∀ df : Option Nat,
      renderMode (initialize_groq_client secret).client df ≠ RenderMode.mainView ∧
      renderMode (initialize_groq_client secret).client df = RenderMode.configWarning := by
  rcases h with h | h <;> subst h <;>
    simp [initialize_groq_client, secretsGet, renderMode]

/-- Witness for C8: the credential absent from the secrets store. -/
theorem missing_credential_blocks_generation_witness :
    (initialize_groq_client none).client = none ∧
    (initialize_groq_client none).errorShown = true ∧
    renderMode (initialize_groq_client none).client (some 3) ≠ RenderMode.mainView := by
  have h := missing_credential_blocks_generation none (Or.inl rfl)
  exact ⟨h.1, h.2.1, (h.2.2 (some 3)).1⟩

/-- C10: the progress computation divides by the row count with no
guard: it is defined exactly when the table has at least one row, a
zero-row table raises (`none`), and a zero-row upload does reach the
main render branch (the table gate only checks `df is not None`). -/
theorem progress_division_unguarded (i n : ℕ) :
    progressValue i 0 = none ∧
    (1 ≤ n → (progressValue i n).isSome = true) ∧
    renderMode (some ()) (some 0) = RenderMode.mainView := by
  refine ⟨rfl, ?_, rfl⟩
  intro hn
  have hne : n ≠ 0 := by omega
  simp [progressValue, hne]

/-- Witness for C10 at `current_index = 0`: the 1-row division is
defined, the 0-row division raises. -/
theorem progress_division_unguarded_witness :
    progressValue 0 0 = none ∧ (progressValue 0 1).isSome = true :=
  ⟨(progress_division_unguarded 0 1).1,
    (progress_division_unguarded 0 1).2.1 le_rfl⟩

/-- C4: when the remote completion call raises while viewing a record,
the render shows an error, makes exactly one outbound call (no retry),
leaves the report dict entry for that index absent, and leaves the
reports of all the other indices untouched. -/
theorem generation_failure_contained (oracle reports : Nat → Option String)
    (i : Nat) (habs : reports i = none) (hfail : oracle i = none) :
    (viewStep oracle reports i).reports = reports ∧
    (viewStep oracle reports i).errorShown = true ∧
    (viewStep oracle reports i).reports i = none ∧
    (∀ j, j ≠ i → (viewStep oracle reports i).reports j = reports j) ∧
    (viewStep oracle reports i).calls = [i] := by
  simp only [viewStep, habs, hfail, reportTruthy]
  exact ⟨rfl, rfl, habs, fun j _ => rfl, rfl⟩

/-- Witness for C4: an empty dict, a failing call at index 0. -/
theorem generation_failure_contained_witness :
    (viewStep (fun _ => none) (fun _ => none) 0).errorShown = true ∧
    (viewStep (fun _ => none) (fun _ => none) 0).calls = [0] ∧
    (viewStep (fun _ => none) (fun _ => none) 0).reports 0 = none ∧
    (viewStep (fun _ => none) (fun _ => none) 0).reports 7 = none := by
  have h := generation_failure_contained (fun _ => none) (fun _ => none) 0 rfl rfl
  exact ⟨h.2.1, h.2.2.2.2, h.2.2.1, h.2.2.2.1 7 (by decide)⟩

/-- The Generate-All event trace depends only on the dict values at the
worklist indices. -/
lemma generateAllAux_trace_congr (oracle : Nat → Option String) :
    ∀ (is : List Nat) (rep1 rep2 : Nat → Option String),
      (∀ j ∈ is, rep1 j = rep2 j) →
      (generateAllAux oracle is rep1).2 = (generateAllAux oracle is rep2).2 := by
  intro is
  induction is with
  | nil => intro rep1 rep2 _; rfl
  | cons i is ih =>
    intro rep1 rep2 hagree
    have hi : rep1 i = rep2 i := hagree i (List.mem_cons_self i is)
    have htail : ∀ j ∈ is, rep1 j = rep2 j :=
      fun j hj => hagree j (List.mem_cons_of_mem i hj)
    cases h : rep2 i with
    | some r =>
      simp only [generateAllAux, hi, h]
      exact ih rep1 rep2 htail
    | none =>
      have hagree2 : ∀ j ∈ is,
          (if reportTruthy (oracle i) = true
            then storeReport rep1 i ((oracle i).getD "") else rep1) j =
          (if reportTruthy (oracle i) = true
            then storeReport rep2 i ((oracle i).getD "") else rep2) j := by
        intro j hj
        by_cases hc : reportTruthy (oracle i) = true <;>
          simp [hc, storeReport, htail j hj]
      simp only [generateAllAux, hi, h]
      rw [ih _ _ hagree2]

/-- The Generate-All event trace: each index of the worklist that is
absent from the dict at loop entry contributes one completion call
followed by one sleep, in worklist order; a present index contributes
nothing. -/
lemma generateAllAux_trace (oracle : Nat → Option String) :
    ∀ (is : List Nat) (reports : Nat → Option String), is.Nodup →
      (generateAllAux oracle is reports).2 =
        is.flatMap (fun i =>
          if reports i = none then [BulkEv.call i, BulkEv.sleepOneSecond] else []) := by
  intro is
  induction is with
  | nil => intro reports _; rfl
  | cons i is ih =>
    intro reports hnd
    rcases List.nodup_cons.mp hnd with ⟨hni, hnd2⟩
    cases h : reports i with
    | some r =>
      simp only [generateAllAux, h, List.flatMap_cons]
      rw [ih reports hnd2]
      simp
    | none =>
      simp only [generateAllAux, h, List.flatMap_cons, if_pos rfl]
      have hcongr :
          (generateAllAux oracle is
            (if reportTruthy (oracle i) = true
              then storeReport reports i ((oracle i).getD "") else reports)).2 =
          (generateAllAux oracle is reports).2 := by
        apply generateAllAux_trace_congr
        intro j hj
        have hji : j ≠ i := fun he => hni (he ▸ hj)
        split <;> simp [storeReport, hji]
      simp only [hcongr, ih reports hnd2]
      rfl

/-- The final dict after Generate-All: an absent worklist index with a
truthy completion is stored; everything else keeps its entry. -/
lemma generateAllAux_final (oracle : Nat → Option String) :
    ∀ (is : List Nat) (reports : Nat → Option String), is.Nodup →
      ∀ j, (generateAllAux oracle is reports).1 j =
        if j ∈ is ∧ reports j = none ∧ reportTruthy (oracle j) = true
        then some ((oracle j).getD "") else reports j := by
  intro is
  induction is with
  | nil => intro reports _ j; simp [generateAllAux]
  | cons i is ih =>
    intro reports hnd j
    rcases List.nodup_cons.mp hnd with ⟨hni, hnd2⟩
    cases h : reports i with
    | some r =>
      simp only [generateAllAux, h]
      rw [ih reports hnd2 j]
      by_cases hji : j = i
      · subst hji
        simp [hni, h]
      · simp [List.mem_cons, hji]
    | none =>
      simp only [generateAllAux, h]
      rw [ih _ hnd2 j]
      by_cases hji : j = i
      · subst hji
        cases ht : reportTruthy (oracle j) with
        | true => simp [hni, storeReport, List.mem_cons, h, ht]
        | false => simp [hni, List.mem_cons, h, ht]
      · have hsr : (if reportTruthy (oracle i) = true
            then storeReport reports i ((oracle i).getD "") else reports) j = reports j := by
          split <;> simp [storeReport, hji]
        simp only [hsr]
        simp [List.mem_cons, hji]

/-- C7: Generate-All walks the indices `0, …, recordCount-1` in
increasing order, issues exactly one completion call for each index
absent from the dict (none for present indices), follows every call by
the fixed one-second sleep before the next, and stores each truthy
result under its index. -/
theorem generate_all_sequential (oracle reports : Nat → Option String) (n : Nat) :
    (generateAll oracle n reports).2 =
      (List.range n).flatMap (fun i =>
        if reports i = none then [BulkEv.call i, BulkEv.sleepOneSecond] else []) ∧
    ∀ j, (generateAll oracle n reports).1 j =
      if j < n ∧ reports j = none ∧ reportTruthy (oracle j) = true
      then some ((oracle j).getD "") else reports j := by
  constructor
  · exact generateAllAux_trace oracle (List.range n) reports (List.nodup_range n)
  · intro j
    rw [generateAll, generateAllAux_final oracle (List.range n) reports (List.nodup_range n) j]
    simp [List.mem_range]

/-- The report dict after one render of the report area. -/
lemma viewStep_reports (oracle reports : Nat → Option String) (i : Nat) :
    (viewStep oracle reports i).reports =
      if reports i = none ∧ reportTruthy (oracle i) = true
      then storeReport reports i ((oracle i).getD "") else reports := by
  rcases h : reports i with _ | r
  · simp only [viewStep, h]
    by_cases ht : reportTruthy (oracle i) = true <;> simp [ht]
  · simp [viewStep, h]

/-- A truthy completion result is a non-empty string. -/
lemma reportTruthy_some (o : Option String) (h : reportTruthy o = true) :
    ∃ s, o = some s ∧ s ≠ "" ∧ o.getD "" = s := by
  rcases o with _ | s
  · simp [reportTruthy] at h
  · exact ⟨s, rfl, of_decide_eq_true h, rfl⟩

/-- C5: a report cached for an index is reused: viewing that index shows
the stored text with no outbound call and no dict change, Generate-All
issues no call for it and keeps its entry, only a new upload clears the
dict, and viewing an index whose report is absent triggers exactly one
generation call on that view. -/
theorem report_cache_reuse (oracle reports : Nat → Option String)
    (n i j m : Nat) (r : String) (hcached : reports i = some r) :
    (viewStep oracle reports i).reports = reports ∧
    (viewStep oracle reports i).shown = some r ∧
    (viewStep oracle reports i).calls = [] ∧
    BulkEv.call i ∉ (generateAll oracle n reports).2 ∧
    (generateAll oracle n reports).1 i = some r ∧
    (uploadStep m).2.2 i = none ∧
    (reports j = none → (viewStep oracle reports j).calls = [j]) := by
  refine ⟨by simp [viewStep, hcached], by simp [viewStep, hcached],
    by simp [viewStep, hcached], ?_, ?_, rfl, ?_⟩
  · rw [generateAll, generateAllAux_trace oracle _ _ (List.nodup_range n)]
    simp only [List.mem_flatMap, not_exists]
    rintro a ⟨_, hmem⟩
    by_cases ha : reports a = none
    · rw [if_pos ha] at hmem
      simp at hmem
      subst hmem
      rw [hcached] at ha
      cases ha
    · rw [if_neg ha] at hmem
      cases hmem
  · rw [generateAll, generateAllAux_final oracle _ _ (List.nodup_range n) i,
      if_neg (by simp [hcached])]
    exact hcached
  · intro hj
    simp only [viewStep, hj]
    split <;> rfl

/-- Witness for C5: a 2-row session with record 0 cached. -/
theorem report_cache_reuse_witness :
    (viewStep (fun _ => some "X") (fun k => if k = 0 then some "R0" else none) 0).calls
      = [] ∧
    (viewStep (fun _ => some "X") (fun k => if k = 0 then some "R0" else none) 0).shown
      = some "R0" ∧
    BulkEv.call 0 ∉
      (generateAll (fun _ => some "X") 2 (fun k => if k = 0 then some "R0" else none)).2 ∧
    (generateAll (fun _ => some "X") 2 (fun k => if k = 0 then some "R0" else none)).1 0
      = some "R0" ∧
    (uploadStep 5).2.2 0 = none ∧
    (viewStep (fun _ => some "X") (fun k => if k = 0 then some "R0" else none) 1).calls
      = [1] := by
  have h := report_cache_reuse (fun _ => some "X")
    (fun k => if k = 0 then some "R0" else none) 2 0 1 5 "R0" rfl
  exact ⟨h.2.2.1, h.2.1, h.2.2.2.1, h.2.2.2.2.1, h.2.2.2.2.2.1, h.2.2.2.2.2.2 rfl⟩

/-- C9: the session invariant that every stored report is a non-empty
string is preserved by viewing and by Generate-All (a value is stored
only when the completion was truthy), and a completion returning the
empty string is treated as a failure: the dict entry stays as it was. -/
theorem stored_reports_nonempty (oracle reports : Nat → Option String)
    (n i : Nat) (hinv : nonEmptyReports reports) :
    nonEmptyReports (viewStep oracle reports i).reports ∧
    nonEmptyReports (generateAll oracle n reports).1 ∧
    (oracle i = some "" →
      (viewStep oracle reports i).reports = reports ∧
      (generateAll oracle n reports).1 i = reports i) := by
  refine ⟨?_, ?_, ?_⟩
  · intro k r hk
    rw [viewStep_reports] at hk
    split at hk
    · next hc =>
      rcases reportTruthy_some (oracle i) hc.2 with ⟨s, _, hs, hgd⟩
      rw [storeReport] at hk
      split at hk
      · rw [hgd] at hk
        cases hk
        exact hs
      · exact hinv k r hk
    · exact hinv k r hk
  · intro k r hk
    rw [generateAll, generateAllAux_final oracle _ _ (List.nodup_range n) k] at hk
    split at hk
    · next hc =>
      rcases reportTruthy_some (oracle k) hc.2.2 with ⟨s, _, hs, hgd⟩
      rw [hgd] at hk
      cases hk
      exact hs
    · exact hinv k r hk
  · intro ho
    constructor
    · rw [viewStep_reports]
      rw [if_neg (fun hc => by simpa [ho, reportTruthy] using hc.2)]
    · rw [generateAll, generateAllAux_final oracle _ _ (List.nodup_range n) i]
      rw [if_neg (fun hc => by simpa [ho, reportTruthy] using hc.2.2)]

/-- Witness for C9: an empty dict, a completion that returns the empty
string — nothing is stored. -/
theorem stored_reports_nonempty_witness :
    (viewStep (fun _ => some "") (fun _ => none) 0).reports = (fun _ => none) ∧
    (generateAll (fun _ => some "") 2 (fun _ => none)).1 0 = none := by
  have h := stored_reports_nonempty (fun _ => some "") (fun _ => none) 2 0
    (fun k r hk => by cases hk)
  have h2 := h.2.2 rfl
  exact ⟨h2.1, h2.2⟩

/-- The two header constants, as explicit character lists. -/
lemma painPointsHeader_eq :
    painPointsHeader = ['P','a','i','n',' ','P','o','i','n','t','s',':'] := rfl

/-- The "Recent Initiatives" header as an explicit character list. -/
lemma recentInitiativesHeader_eq :
    recentInitiativesHeader =
      ['R','e','c','e','n','t',' ','I','n','i','t','i','a','t','i','v','e','s',':'] := rfl

/-- The empty line is not a section header. -/
lemma isSectionHeader_nil : isSectionHeader ([] : TextLine) = false := rfl

/-- A line that starts with a bullet marker is not a section header. -/
lemma isSectionHeader_bullet (r : TextLine) : isSectionHeader ('•' :: r) = false := by
  have h1 : ('•' :: r) ≠ painPointsHeader := by
    rw [painPointsHeader_eq]
    intro h
    injection h with h1 _
    exact absurd h1 (by decide)
  have h2 : ('•' :: r) ≠ recentInitiativesHeader := by
    rw [recentInitiativesHeader_eq]
    intro h
    injection h with h1 _
    exact absurd h1 (by decide)
  simp [isSectionHeader, beq_eq_false_iff_ne, h1, h2]

/-- A line that does not start with a digit has no enumeration marker. -/
lemma enumSplit_not_digit (c : Char) (r : TextLine) (h : c.isDigit = false) :
    enumSplit (c :: r) = none := by
  simp [enumSplit, List.takeWhile_cons, h]

/-- `bulletize` leaves a line without an enumeration marker unchanged. -/
lemma bulletize_eq_of_none (l : TextLine) (h : enumSplit l = none) :
    bulletize l = l := by
  simp [bulletize, h]

/-- `bulletize` rewrites a leading enumeration marker into a bullet. -/
lemma bulletize_eq_of_some (l r : TextLine) (h : enumSplit l = some r) :
    bulletize l = '•' :: ' ' :: r := by
  simp [bulletize, h]

/-- A line starting with a bullet marker is a `bulletize` fixed point. -/
lemma bulletize_bullet_head (r : TextLine) : bulletize ('•' :: r) = '•' :: r :=
  bulletize_eq_of_none _ (enumSplit_not_digit '•' r (by decide))

/-- `bulletize` is idempotent on every line. -/
lemma bulletize_bulletize (l : TextLine) : bulletize (bulletize l) = bulletize l := by
  cases h : enumSplit l with
  | none => rw [bulletize_eq_of_none l h, bulletize_eq_of_none l h]
  | some r => rw [bulletize_eq_of_some l r h, bulletize_bullet_head]

/-- `takeWhile`/`dropWhile` of an appended list, when the left part
already contains a character breaking the scan. -/
lemma scan_append (p : Char → Bool) :
    ∀ s t : TextLine, s.dropWhile p ≠ [] →
      (s ++ t).takeWhile p = s.takeWhile p ∧
      (s ++ t).dropWhile p = s.dropWhile p ++ t := by
  intro s
  induction s with
  | nil => intro t h; cases h rfl
  | cons c s ih =>
    intro t h
    by_cases hc : p c = true
    · have h2 : s.dropWhile p ≠ [] := by
        rw [List.dropWhile_cons, if_pos hc] at h
        exact h
      simp [List.takeWhile_cons, List.dropWhile_cons, hc, (ih t h2).1, (ih t h2).2]
    · simp [List.takeWhile_cons, List.dropWhile_cons, hc]

/-- A leading enumeration marker survives appending text to the line. -/
lemma enumSplit_append (s t r : TextLine) (h : enumSplit s = some r) :
    enumSplit (s ++ t) = some (r ++ t) := by
  rw [enumSplit] at h
  split at h
  · next hcond =>
    cases h
    rcases hcond with ⟨hds, hhd⟩
    rcases hrest : s.dropWhile (fun c => c.isDigit) with _ | ⟨e, r2⟩
    · rw [hrest] at hhd
      cases hhd
    · rw [hrest] at hhd
      have he : e = '.' := by
        simpa using hhd
      have hne : s.dropWhile (fun c => c.isDigit) ≠ [] := by
        rw [hrest]
        exact List.cons_ne_nil e r2
      have hsc := scan_append (fun c => c.isDigit) s t hne
      rw [enumSplit, if_pos]
      · rw [hsc.2, hrest]
        simp
    -- remaining side goal of if_pos
      · refine ⟨?_, ?_⟩
        · rw [hsc.1]
          exact hds
        · rw [hsc.2, hrest, he]
          simp
  · cases h

/-- A line with an enumeration marker is changed by `bulletize`. -/
lemma bulletize_ne_self (l r : TextLine) (h : enumSplit l = some r) :
    bulletize l ≠ l := by
  intro heq
  rw [bulletize_eq_of_some l r h] at heq
  rw [enumSplit] at h
  split at h
  · next hcond =>
    rcases hcond with ⟨hds, _⟩
    rcases htw : l.takeWhile (fun c => c.isDigit) with _ | ⟨d, ds⟩
    · exact hds htw
    · have hd : d.isDigit = true := by
        have hmem : d ∈ l.takeWhile (fun c => c.isDigit) := by
          rw [htw]
          exact List.mem_cons_self d ds
        exact List.mem_takeWhile_imp hmem
      have hl : l = (d :: ds) ++ l.dropWhile (fun c => c.isDigit) := by
        rw [← htw]
        exact (List.takeWhile_append_dropWhile _ _).symm
      rw [← heq] at hl
      injection hl with h1 _
      rw [← h1] at hd
      exact absurd hd (by decide)
  · cases h

/-- Structure of `breakTail`: the current segment contains no bullet,
every later segment starts with a bullet and contains no further bullet,
and no character is lost. -/
lemma breakTail_spec (cs : TextLine) :
    ('•' ∉ (breakTail cs).1) ∧
    (∀ g ∈ (breakTail cs).2, ∃ g0, g = '•' :: g0 ∧ '•' ∉ g0) ∧
    (breakTail cs).1 ++ ((breakTail cs).2).flatten = cs := by
  induction cs with
  | nil => exact ⟨by simp [breakTail], by simp [breakTail], rfl⟩
  | cons c cs ih =>
    by_cases hc : c = '•'
    · subst hc
      simp only [breakTail, if_pos rfl]
      refine ⟨by simp, ?_, ?_⟩
      · intro g hg
        rcases List.mem_cons.mp hg with hg | hg
        · exact ⟨(breakTail cs).1, hg, ih.1⟩
        · exact ih.2.1 g hg
      · simp [ih.2.2]
    · simp only [breakTail, if_neg hc]
      refine ⟨?_, ih.2.1, ?_⟩
      · intro hmem
        rcases List.mem_cons.mp hmem with h | h
        · exact hc h.symm
        · exact ih.1 h
      · simp [ih.2.2]

/-- A tail without bullets is not broken. -/
lemma breakTail_no_bullet (cs : TextLine) (h : '•' ∉ cs) :
    breakTail cs = (cs, []) := by
  induction cs with
  | nil => rfl
  | cons c cs ih =>
    have hc : ¬ c = '•' := fun he => h (by rw [he]; exact List.mem_cons_self '•' cs)
    have hcs : '•' ∉ cs := fun hm => h (List.mem_cons_of_mem c hm)
    simp [breakTail, if_neg hc, ih hcs]

/-- A line whose only possible bullet is its first character is a
`breakLine` fixed point. -/
lemma breakLine_single (c : Char) (cs : TextLine) (h : '•' ∉ cs) :
    breakLine (c :: cs) = [c :: cs] := by
  simp [breakLine, breakTail_no_bullet cs h]

/-- Every segment that `breakLine` produces from a non-empty
`bulletize`-fixed line is itself non-empty, `bulletize`-fixed and
`breakLine`-fixed. -/
lemma breakLine_segments (l2 : TextLine) (hne : l2 ≠ []) (hfix : bulletize l2 = l2) :
    ∀ o ∈ breakLine l2, o ≠ [] ∧ bulletize o = o ∧ breakLine o = [o] := by
  rcases l2 with _ | ⟨c, cs⟩
  · cases hne rfl
  · intro o ho
    have hs := breakTail_spec cs
    simp only [breakLine] at ho
    rcases List.mem_cons.mp ho with ho | ho
    · subst ho
      refine ⟨by simp, ?_, breakLine_single c _ hs.1⟩
      cases hsp : enumSplit (c :: (breakTail cs).1) with
      | none => exact bulletize_eq_of_none _ hsp
      | some r0 =>
        exfalso
        have happ := enumSplit_append _ (((breakTail cs).2).flatten) _ hsp
        have hdecomp :
            (c :: (breakTail cs).1) ++ ((breakTail cs).2).flatten = c :: cs := by
          simp [hs.2.2]
        rw [hdecomp] at happ
        exact bulletize_ne_self _ _ happ hfix
    · rcases hs.2.1 o ho with ⟨g0, rfl, hg0⟩
      exact ⟨by simp, bulletize_bullet_head g0, breakLine_single '•' g0 hg0⟩

/-- `bulletize` never turns a non-header line into a section header. -/
lemma bulletize_not_header (l : TextLine) (h : isSectionHeader l = false) :
    isSectionHeader (bulletize l) = false := by
  cases hsp : enumSplit l with
  | none => rw [bulletize_eq_of_none l hsp]; exact h
  | some r => rw [bulletize_eq_of_some l r hsp]; exact isSectionHeader_bullet _

/-- `bulletize` never empties a non-empty line. -/
lemma bulletize_ne_nil (l : TextLine) (h : l ≠ []) : bulletize l ≠ [] := by
  cases hsp : enumSplit l with
  | none => rw [bulletize_eq_of_none l hsp]; exact h
  | some r => rw [bulletize_eq_of_some l r hsp]; simp

/-- Unfolding of `procLines` at a header line. -/
lemma procLines_cons_header (b : Bool) (l : TextLine) (ls : List TextLine)
    (h : isSectionHeader l = true) :
    procLines b (l :: ls) = l :: procLines true ls := by
  simp [procLines, h]

/-- Unfolding of `procLines` at an empty line. -/
lemma procLines_cons_nil (b : Bool) (ls : List TextLine) :
    procLines b ([] :: ls) = [] :: procLines false ls := by
  simp [procLines, isSectionHeader_nil]

/-- Unfolding of `procLines` at a plain line, out of section. -/
lemma procLines_cons_plain_false (l : TextLine) (ls : List TextLine)
    (h1 : isSectionHeader l = false) (h2 : l ≠ []) :
    procLines false (l :: ls) = bulletize l :: procLines false ls := by
  simp [procLines, h1, h2]

/-- Unfolding of `procLines` at a plain line, in section. -/
lemma procLines_cons_plain_true (l : TextLine) (ls : List TextLine)
    (h1 : isSectionHeader l = false) (h2 : l ≠ []) :
    procLines true (l :: ls) = breakLine (bulletize l) ++ procLines true ls := by
  simp [procLines, h1, h2]

/-- Processing in-section a block of lines already in normal form leaves
the block unchanged and continues in-section behind it. -/
lemma procLines_append_normal (P : List TextLine) :
    ∀ segs : List TextLine,
      (∀ o ∈ segs, o ≠ [] ∧ bulletize o = o ∧ breakLine o = [o]) →
      procLines true (segs ++ P) = segs ++ procLines true P := by
  intro segs
  induction segs with
  | nil => intro _; rfl
  | cons o segs ih =>
    intro h
    have ho := h o (List.mem_cons_self o segs)
    have htail := fun g hg => h g (List.mem_cons_of_mem o hg)
    cases hh : isSectionHeader o with
    | true =>
      simp only [List.cons_append]
      rw [procLines_cons_header true o _ hh, ih htail]
    | false =>
      simp only [List.cons_append]
      rw [procLines_cons_plain_true o _ hh ho.1, ho.2.1, ho.2.2,
        List.singleton_append, ih htail]

/-- The line-level pass of the post-processor is idempotent, from either
starting section state. -/
lemma procLines_idem : ∀ (ls : List TextLine) (b : Bool),
    procLines b (procLines b ls) = procLines b ls := by
  intro ls
  induction ls with
  | nil => intro b; rfl
  | cons l ls ih =>
    intro b
    cases hh : isSectionHeader l with
    | true =>
      rw [procLines_cons_header b l ls hh, procLines_cons_header b l _ hh, ih true]
    | false =>
      by_cases hb : l = []
      · subst hb
        rw [procLines_cons_nil b ls, procLines_cons_nil b _, ih false]
      · cases b with
        | false =>
          rw [procLines_cons_plain_false l ls hh hb,
            procLines_cons_plain_false (bulletize l) _
              (bulletize_not_header l hh) (bulletize_ne_nil l hb),
            bulletize_bulletize, ih false]
        | true =>
          rw [procLines_cons_plain_true l ls hh hb,
            procLines_append_normal _ _
              (breakLine_segments (bulletize l) (bulletize_ne_nil l hb)
                (bulletize_bulletize l)),
            ih true]

/-- C6: the report post-processor (modelled from the spec, since
`src/app.py` contains no post-processing code) is idempotent: re-running
it on already-processed text produces the same text. -/
theorem postprocess_idempotent (text : List TextLine) :
    postprocess (postprocess text) = postprocess text :=
  procLines_idem text false

/-- When every entry of the dict over a worklist is present, collecting
them equals reading each entry directly. -/
lemma filterMap_of_all_isSome (f : Nat → Option String) :
    ∀ l : List Nat, (∀ a ∈ l, (f a).isSome = true) →
      l.filterMap f = l.map (fun a => (f a).getD "") := by
  intro l
  induction l with
  | nil => intro _; rfl
  | cons a l ih =>
    intro h
    have ha := h a (List.mem_cons_self a l)
    rcases Option.isSome_iff_exists.mp ha with ⟨s, hs⟩
    simp [List.filterMap_cons, hs, ih (fun b hb => h b (List.mem_cons_of_mem a hb))]

/-- C1 counterexample: in the 3-row session where only record 0 has been
generated, exporting produces no output at all (the download button is
disabled), rather than a 3-row table with placeholder rows. -/
theorem export_partial_yields_nothing :
    ¬ ∃ rows, exportReports 3 threeRowPartial = some rows := by
  rintro ⟨rows, h⟩
  have h0 : exportReports 3 threeRowPartial = none := by rfl
  rw [h0] at h
  cases h

/-- C1 (amended): export is enabled only once every row index has a
report; with any index missing the export branch produces nothing, and
when it runs, the output has exactly one row per input row with row `i`
carrying the report generated for index `i` — no placeholder exists. -/
theorem export_requires_full_generation (n : Nat) (reports : Nat → Option String) :
    ((∃ i, i < n ∧ reports i = none) → exportReports n reports = none) ∧
    (∀ rows, exportReports n reports = some rows →
      rows.length = n ∧ ∀ i, i < n → rows[i]? = reports i) := by
  constructor
  · rintro ⟨i, hin, hnone⟩
    rw [exportReports, if_neg]
    intro hlen
    rw [presentCount] at hlen
    have hall : ∀ a ∈ List.range n, (reports a).isSome = true :=
      List.filter_length_eq_length.mp (by rw [hlen, List.length_range])
    have hi := hall i (List.mem_range.mpr hin)
    rw [hnone] at hi
    cases hi
  · intro rows h
    by_cases hg : presentCount n reports = n
    · rw [exportReports, if_pos hg] at h
      have hall : ∀ a ∈ List.range n, (reports a).isSome = true := by
        rw [presentCount] at hg
        exact List.filter_length_eq_length.mp (by rw [hg, List.length_range])
      rw [filterMap_of_all_isSome reports (List.range n) hall] at h
      cases h
      constructor
      · simp
      · intro i hin
        rw [List.getElem?_map, List.getElem?_range hin]
        have hi := hall i (List.mem_range.mpr hin)
        rcases Option.isSome_iff_exists.mp hi with ⟨s, hs⟩
        simp [hs]
    · rw [exportReports, if_neg hg] at h
      cases h

/-- Witness for C1 (amended): the partial 3-row session exports nothing;
a fully generated 2-row session exports 2 rows carrying the reports. -/
theorem export_requires_full_generation_witness :
    exportReports 3 threeRowPartial = none ∧
    (["GENERATED", "GENERATED"] : List String).length = 2 ∧
    (["GENERATED", "GENERATED"] : List String)[0]? = twoRowFull 0 ∧
    (["GENERATED", "GENERATED"] : List String)[1]? = twoRowFull 1 := by
  have h1 := (export_requires_full_generation 3 threeRowPartial).1 ⟨1, by omega, rfl⟩
  have h2 := (export_requires_full_generation 2 twoRowFull).2
    ["GENERATED", "GENERATED"] (by rfl)
  exact ⟨h1, h2.1, h2.2 0 (by omega), h2.2 1 (by omega)⟩
